import Mathlib

/-!
Shallow embedding of the company (Empresa) CRUD core of the repository
(`src/app/routers/empresa.py`) and, modelled from the specification, the
borrow lifecycle. Strings are embedded as `List Char`; the persistence
session is embedded as an explicit list of rows plus an autoincrement
counter. Each operation returns the response (`Except Err ...`) together
with the session state after the call (unchanged whenever the handler
raises before mutating).
-/

namespace MinhaIntegracao

/-- `re.sub(r'[^0-9]', '', s)`: keep only the ASCII digit characters. -/
def digitsOnly (s : List Char) : List Char :=
  s.filter Char.isDigit

/-- `validar_cnpj` (src/app/routers/empresa.py): strip non-digits; require
exactly 14 digits that are not all the same digit. -/
def validar_cnpj (cnpj : List Char) : Bool :=
  let c := digitsOnly cnpj
  if c.length ≠ 14 then false
  else
    match c with
    | [] => false
    | d :: _ => !(c == List.replicate 14 d)

/-- `validar_telefone` (src/app/routers/empresa.py): strip non-digits;
true iff 10 or 11 digits remain. -/
def validar_telefone (telefone : List Char) : Bool :=
  let t := digitsOnly telefone
  t.length == 10 || t.length == 11

/-- Characters admitted by `[a-zA-Z0-9._%+-]` in the email pattern. -/
def emailLocalChar (c : Char) : Bool :=
  c.isAlpha || c.isDigit || c == '.' || c == '_' || c == '%' || c == '+' || c == '-'

/-- Characters admitted by `[a-zA-Z0-9.-]` in the email pattern. -/
def emailDomainChar (c : Char) : Bool :=
  c.isAlpha || c.isDigit || c == '.' || c == '-'

/-- The suffix `[a-zA-Z]{2,}$` of the email pattern. -/
def emailTld (t : List Char) : Bool :=
  decide (2 ≤ t.length) && t.all Char.isAlpha

/-- The suffix `[a-zA-Z0-9.-]+\.[a-zA-Z]{2,}$` of the email pattern, as the
existence of a decomposition (regex matching semantics). -/
def emailDomain (s : List Char) : Bool :=
  (List.range s.length).any fun i =>
    decide (0 < i) && (s.take i).all emailDomainChar &&
      match s.drop i with
      | '.' :: t => emailTld t
      | _ => false

/-- `validar_email` (src/app/routers/empresa.py): the anchored pattern
`^[a-zA-Z0-9._%+-]+@[a-zA-Z0-9.-]+\.[a-zA-Z]{2,}$`, embedded as the
existence of a decomposition local-part, at sign, domain. -/
def validar_email (email : List Char) : Bool :=
  (List.range email.length).any fun i =>
    decide (0 < i) && (email.take i).all emailLocalChar &&
      match email.drop i with
      | '@' :: rest => emailDomain rest
      | _ => false

/-- The error kinds the handlers signal, told apart by their detail
message (the transport codes 400/404 are out of scope). The first three
are ValidationError kinds, `cnpjDuplicado` is the Conflict kind,
`naoEncontrada` the NotFound kind; `tipoInvalido` stands for the
unhandled TypeError raised by `re.sub` on a `None` value. The last two
are the borrow-lifecycle errors of the specification's model. -/
inductive Err where
  | cnpjInvalido
  | emailInvalido
  | telefoneInvalido
  | cnpjDuplicado
  | naoEncontrada
  | tipoInvalido
  | copiaEmprestada
  | emprestimoNaoAberto
deriving DecidableEq, Repr

/-- The ValidationError kinds (malformed tax ID / email / phone). -/
def Err.isValidationError : Err → Bool
  | .cnpjInvalido | .emailInvalido | .telefoneInvalido => true
  | _ => false

/-- A persisted `Empresa` row. `cnpj` and `razao_social` are non-null at
creation; `razao_social` is carried as an option because a partial update
may assign `None` to any attribute it lists. -/
structure Empresa where
  id : Nat
  cnpj : List Char
  razao_social : Option (List Char)
  nome_fantasia : Option (List Char)
  numero_contato : Option (List Char)
  email_contato : Option (List Char)
  website : Option (List Char)
deriving DecidableEq, Repr

/-- The `EmpresaCreate` request schema: `cnpj` and `razao_social` required,
the rest optional with default `None`. -/
structure EmpresaCreate where
  cnpj : List Char
  razao_social : List Char
  nome_fantasia : Option (List Char) := none
  numero_contato : Option (List Char) := none
  email_contato : Option (List Char) := none
  website : Option (List Char) := none
deriving DecidableEq, Repr

/-- One field of the `EmpresaUpdate` schema, keeping the pydantic
distinction between a field absent from the payload (`unset`), a field
explicitly set to `None` (`null`), and a field set to a string. -/
inductive UField where
  | unset
  | null
  | val (s : List Char)
deriving DecidableEq, Repr

/-- Python truthiness of the attribute's value: the attribute reads as
`None` when the field is unset or null, so only a non-empty string is
truthy. -/
def UField.truthy : UField → Bool
  | .val s => !(s == [])
  | _ => false

/-- The string value of a field; only read under a `truthy` guard. -/
def UField.getStr : UField → List Char
  | .val s => s
  | _ => []

/-- `setattr` semantics of one field on an optional column: an unset field
leaves the column alone, a listed field overwrites it. -/
def UField.applyOpt (f : UField) (old : Option (List Char)) : Option (List Char) :=
  match f with
  | .unset => old
  | .null => none
  | .val s => some s

/-- The `EmpresaUpdate` request schema, all six fields optional. -/
structure EmpresaUpdate where
  cnpj : UField := .unset
  razao_social : UField := .unset
  nome_fantasia : UField := .unset
  numero_contato : UField := .unset
  email_contato : UField := .unset
  website : UField := .unset
deriving DecidableEq, Repr

/-- The persistence session state: the `empresa` table and its
autoincrement counter. -/
structure DB where
  rows : List Empresa
  nextId : Nat
deriving DecidableEq, Repr

def DB.empty : DB := ⟨[], 1⟩

/-- `db.query(Empresa).filter(Empresa.id == i).first()`. -/
def DB.firstById (db : DB) (i : Nat) : Option Empresa :=
  db.rows.find? fun r => r.id == i

/-- `db.query(Empresa).filter(Empresa.cnpj == c).first()`. -/
def DB.firstByCnpj (db : DB) (c : List Char) : Option Empresa :=
  db.rows.find? fun r => r.cnpj == c

/-- Truthiness of an optional string attribute (`None` and `""` falsy). -/
def truthyOpt : Option (List Char) → Bool
  | none => false
  | some s => !(s == [])

/-- Mutating in place the first row a filter matched: the list with the
first element satisfying `p` replaced by `x`. -/
def replaceFirstP (p : α → Bool) (x : α) : List α → List α
  | [] => []
  | r :: rs => if p r then x :: rs else r :: replaceFirstP p x rs

/-- `buscar_empresa` (GET by id). Read-only, so only the response. -/
def buscar_empresa (db : DB) (empresa_id : Nat) : Except Err Empresa :=
  match db.firstById empresa_id with
  | none => .error .naoEncontrada
  | some e => .ok e

/-- `buscar_empresa_por_cnpj` (GET by tax ID): strips non-digits from the
query value, then exact match. -/
def buscar_empresa_por_cnpj (db : DB) (cnpj : List Char) : Except Err Empresa :=
  let cnpj_limpo := digitsOnly cnpj
  match db.firstByCnpj cnpj_limpo with
  | none => .error .naoEncontrada
  | some e => .ok e

/-- `criar_empresa` (POST): validate the tax ID, then — only when truthy —
the email and the phone; reject a duplicate of the normalized tax ID;
otherwise append a new row carrying the digits-only tax ID. -/
def criar_empresa (db : DB) (empresa : EmpresaCreate) : Except Err Empresa × DB :=
  if !validar_cnpj empresa.cnpj then (.error .cnpjInvalido, db)
  else if truthyOpt empresa.email_contato &&
      !validar_email (empresa.email_contato.getD []) then (.error .emailInvalido, db)
  else if truthyOpt empresa.numero_contato &&
      !validar_telefone (empresa.numero_contato.getD []) then (.error .telefoneInvalido, db)
  else
    let cnpj_limpo := digitsOnly empresa.cnpj
    match db.firstByCnpj cnpj_limpo with
    | some _ => (.error .cnpjDuplicado, db)
    | none =>
      let db_empresa : Empresa :=
        { id := db.nextId
          cnpj := cnpj_limpo
          razao_social := some empresa.razao_social
          nome_fantasia := empresa.nome_fantasia
          numero_contato := empresa.numero_contato
          email_contato := empresa.email_contato
          website := empresa.website }
      (.ok db_empresa, { rows := db.rows ++ [db_empresa], nextId := db.nextId + 1 })

/-- The `for field, value in update_data.items(): setattr(...)` loop on
the fields present in the payload, the tax ID normalized first. The
`null` tax-ID case never reaches this point (the handler crashes on
`re.sub` before it). -/
def aplicarUpdate (e : Empresa) (u : EmpresaUpdate) : Empresa :=
  { e with
    cnpj := match u.cnpj with | .val s => digitsOnly s | _ => e.cnpj
    razao_social := u.razao_social.applyOpt e.razao_social
    nome_fantasia := u.nome_fantasia.applyOpt e.nome_fantasia
    numero_contato := u.numero_contato.applyOpt e.numero_contato
    email_contato := u.email_contato.applyOpt e.email_contato
    website := u.website.applyOpt e.website }

/-- `atualizar_empresa` (PUT): NotFound on a missing target; when the
tax-ID value is truthy, validate it and check the duplicate against the
other rows; validate truthy email and phone; `exclude_unset` application
of the listed fields, with `re.sub` crashing on an explicit `None` tax
ID. -/
def atualizar_empresa (db : DB) (empresa_id : Nat) (u : EmpresaUpdate) :
    Except Err Empresa × DB :=
  match db.firstById empresa_id with
  | none => (.error .naoEncontrada, db)
  | some db_empresa =>
    if u.cnpj.truthy && !validar_cnpj u.cnpj.getStr then (.error .cnpjInvalido, db)
    else if u.cnpj.truthy &&
        (db.rows.find? fun r =>
          r.cnpj == digitsOnly u.cnpj.getStr && r.id != empresa_id).isSome then
      (.error .cnpjDuplicado, db)
    else if u.email_contato.truthy && !validar_email u.email_contato.getStr then
      (.error .emailInvalido, db)
    else if u.numero_contato.truthy && !validar_telefone u.numero_contato.getStr then
      (.error .telefoneInvalido, db)
    else if u.cnpj == .null then (.error .tipoInvalido, db)
    else
      let atualizado := aplicarUpdate db_empresa u
      (.ok atualizado,
        { db with rows := replaceFirstP (fun r => r.id == empresa_id) atualizado db.rows })

/-- `deletar_empresa` (DELETE): NotFound on a missing target, otherwise
remove the row the lookup found. -/
def deletar_empresa (db : DB) (empresa_id : Nat) : Except Err Unit × DB :=
  match db.firstById empresa_id with
  | none => (.error .naoEncontrada, db)
  | some _ => (.ok (), { db with rows := db.rows.eraseP fun r => r.id == empresa_id })

/-- The session states reachable from an empty table through the three
mutating handlers (a failed call leaves the state unchanged, so the step
may take either outcome). -/
inductive Reachable : DB → Prop where
  | init : Reachable DB.empty
  | create {db : DB} (e : EmpresaCreate) :
      Reachable db → Reachable (criar_empresa db e).2
  | update {db : DB} (i : Nat) (u : EmpresaUpdate) :
      Reachable db → Reachable (atualizar_empresa db i u).2
  | delete {db : DB} (i : Nat) :
      Reachable db → Reachable (deletar_empresa db i).2

/-- The guards of `criar_empresa` before the duplicate check, as one
predicate. -/
def passesCreateValidations (e : EmpresaCreate) : Bool :=
  validar_cnpj e.cnpj &&
  !(truthyOpt e.email_contato && !validar_email (e.email_contato.getD [])) &&
  !(truthyOpt e.numero_contato && !validar_telefone (e.numero_contato.getD []))

/-- Modelled from the spec: the lifecycle states of a Borrow (the Borrow
model `src/app/models/borrow.py` is not among the provided source files).
"Open (copy checked out) → Returned (terminal)". -/
inductive BorrowStatus where
  | aberto
  | devolvido
deriving DecidableEq, Repr

/-- Modelled from the spec: "a transaction record linking exactly one
borrower (Customer-role User), one lender (Staff-role User), and one
BookCopy", with its lifecycle state (`src/app/models/borrow.py` is not
among the provided source files). -/
structure Borrow where
  id : Nat
  borrower_id : Nat
  lender_id : Nat
  copy_id : Nat
  status : BorrowStatus
deriving DecidableEq, Repr

/-- The borrow table of the persistence session, with its autoincrement
counter. -/
structure BorrowDB where
  borrows : List Borrow
  nextId : Nat
deriving DecidableEq, Repr

def BorrowDB.empty : BorrowDB := ⟨[], 1⟩

/-- Whether some Borrow row on the given copy is Open. -/
def BorrowDB.hasOpenOn (db : BorrowDB) (copyId : Nat) : Bool :=
  db.borrows.any fun b => b.copy_id == copyId && b.status == .aberto

/-- Modelled from the spec: the Borrow create handler
(`src/app/routers/borrow.py` is not among the provided source files).
"Creating a Borrow fails with Conflict if the target copy already has an
Open Borrow"; otherwise the new Borrow starts Open. -/
def criar_emprestimo (db : BorrowDB) (borrowerId lenderId copyId : Nat) :
    Except Err Borrow × BorrowDB :=
  if db.hasOpenOn copyId then (.error .copiaEmprestada, db)
  else
    let b : Borrow := ⟨db.nextId, borrowerId, lenderId, copyId, .aberto⟩
    (.ok b, ⟨db.borrows ++ [b], db.nextId + 1⟩)

/-- Modelled from the spec: the Borrow return handler
(`src/app/routers/borrow.py` is not among the provided source files).
"Transition Open→Returned fails if the Borrow is not currently Open
(idempotency guard: returning twice is rejected, not silently
accepted)". -/
def devolver_emprestimo (db : BorrowDB) (borrowId : Nat) :
    Except Err Borrow × BorrowDB :=
  match db.borrows.find? (fun b => b.id == borrowId) with
  | none => (.error .naoEncontrada, db)
  | some b =>
    if b.status != .aberto then (.error .emprestimoNaoAberto, db)
    else
      let b2 : Borrow := { b with status := .devolvido }
      (.ok b2, { db with borrows := replaceFirstP (fun r => r.id == borrowId) b2 db.borrows })

/-- The borrow-table states reachable from an empty table through the two
lifecycle handlers. -/
inductive BorrowReachable : BorrowDB → Prop where
  | init : BorrowReachable BorrowDB.empty
  | create {db : BorrowDB} (borrowerId lenderId copyId : Nat) :
      BorrowReachable db → BorrowReachable (criar_emprestimo db borrowerId lenderId copyId).2
  | ret {db : BorrowDB} (borrowId : Nat) :
      BorrowReachable db → BorrowReachable (devolver_emprestimo db borrowId).2

/-! ## Helper lemmas on list surgery -/

theorem mem_replaceFirstP {p : α → Bool} {a x : α} {l : List α}
    (h : x ∈ replaceFirstP p a l) : x ∈ l ∨ x = a := by
  induction l with
  | nil => simp [replaceFirstP] at h
  | cons r rs ih =>
    by_cases hr : p r = true
    · simp [replaceFirstP, hr] at h
      rcases h with h | h
      · exact Or.inr h
      · exact Or.inl (List.mem_cons_of_mem _ h)
    · simp [replaceFirstP, hr] at h
      rcases h with h | h
      · exact Or.inl (h ▸ List.mem_cons_self _ _)
      · rcases ih h with h' | h'
        · exact Or.inl (List.mem_cons_of_mem _ h')
        · exact Or.inr h'

theorem pairwise_replaceFirstP {p : α → Bool} {a : α} {R : α → α → Prop} {l : List α}
    (hp : l.Pairwise R)
    (hR : ∀ x y, R x y → p x = true → p y = false)
    (ha : ∀ x ∈ l, p x = false → R x a ∧ R a x) :
    (replaceFirstP p a l).Pairwise R := by
  induction l with
  | nil => exact List.Pairwise.nil
  | cons r rs ih =>
    rcases List.pairwise_cons.mp hp with ⟨hr, hrs⟩
    by_cases hpr : p r = true
    · simp only [replaceFirstP, hpr, if_true]
      refine List.pairwise_cons.mpr ⟨?_, hrs⟩
      intro x hx
      have hpx : p x = false := hR r x (hr x hx) hpr
      exact (ha x (List.mem_cons_of_mem _ hx) hpx).2
    · simp only [replaceFirstP, hpr, if_false]
      refine List.pairwise_cons.mpr ⟨?_, ?_⟩
      · intro x hx
        rcases mem_replaceFirstP hx with h' | h'
        · exact hr x h'
        · exact h' ▸ (ha r (List.mem_cons_self _ _) (Bool.of_not_eq_true hpr)).1
      · exact ih hrs (fun x hx hpx => ha x (List.mem_cons_of_mem _ hx) hpx)

theorem find?_replaceFirstP {p : α → Bool} {a b : α} {l : List α}
    (hf : l.find? p = some b) (hpa : p a = true) :
    (replaceFirstP p a l).find? p = some a := by
  induction l with
  | nil => simp [List.find?] at hf
  | cons r rs ih =>
    by_cases hpr : p r = true
    · simp [replaceFirstP, hpr, List.find?, hpa]
    · have hpr' : p r = false := Bool.of_not_eq_true hpr
      rw [List.find?_cons_of_neg _ hpr] at hf
      simp only [replaceFirstP, hpr', Bool.false_eq_true, if_false]
      rw [List.find?_cons_of_neg _ hpr]
      exact ih hf

theorem countP_le_one_of_pairwise {q : α → Bool} {l : List α}
    (hp : l.Pairwise fun x y => ¬(q x = true ∧ q y = true)) :
    l.countP q ≤ 1 := by
  induction l with
  | nil => simp [List.countP_nil]
  | cons r rs ih =>
    rcases List.pairwise_cons.mp hp with ⟨hr, hrs⟩
    by_cases hqr : q r = true
    · have hz : rs.countP q = 0 := by
        apply List.countP_eq_zero.mpr
        intro y hy
        intro hqy
        exact hr y hy ⟨hqr, hqy⟩
      rw [List.countP_cons, hz, hqr]
      simp
    · rw [List.countP_cons]
      have : q r = false := Bool.of_not_eq_true hqr
      rw [this]
      simpa using ih hrs

/-! ## The tax-ID uniqueness invariant of the company table -/

/-- What holds of any two distinct rows of the company table: their ids
differ, and their stored tax IDs coincide only when both are the empty
string (the value an update with an empty tax-ID field can store). -/
def EmpresaPairOk (r1 r2 : Empresa) : Prop :=
  r1.id ≠ r2.id ∧ (r1.cnpj = r2.cnpj → r1.cnpj = [] ∧ r2.cnpj = [])

theorem empresaPairOk_symm {r1 r2 : Empresa} (h : EmpresaPairOk r1 r2) :
    EmpresaPairOk r2 r1 :=
  ⟨fun he => h.1 he.symm, fun he => ⟨(h.2 he.symm).2, (h.2 he.symm).1⟩⟩

theorem empresaPairOk_symmetric : Symmetric EmpresaPairOk :=
  fun _ _ h => empresaPairOk_symm h

/-- The inductive invariant of the company table: ids are below the
autoincrement counter and any two rows satisfy `EmpresaPairOk`. -/
def DB.Inv (db : DB) : Prop :=
  (∀ r ∈ db.rows, r.id < db.nextId) ∧ db.rows.Pairwise EmpresaPairOk

theorem inv_pair {db : DB} (h : db.Inv) {x y : Empresa}
    (hx : x ∈ db.rows) (hy : y ∈ db.rows) (hne : x.id ≠ y.id) :
    EmpresaPairOk x y :=
  h.2.forall empresaPairOk_symmetric hx hy (fun hxy => hne (congrArg Empresa.id hxy))

theorem inv_criar (db : DB) (e : EmpresaCreate) (h : db.Inv) :
    (criar_empresa db e).2.Inv := by
  unfold criar_empresa
  dsimp only
  split
  · exact h
  split
  · exact h
  split
  · exact h
  split
  · exact h
  rename_i hfind
  constructor
  · intro r hr
    rcases List.mem_append.mp hr with hr | hr
    · exact Nat.lt_succ_of_lt (h.1 r hr)
    · simp only [List.mem_singleton] at hr
      subst hr
      exact Nat.lt_succ_self _
  · refine List.pairwise_append.mpr ⟨h.2, List.pairwise_singleton _ _, ?_⟩
    intro x hx y hy
    simp only [List.mem_singleton] at hy
    subst hy
    refine ⟨Nat.ne_of_lt (h.1 x hx), ?_⟩
    intro hcn
    exfalso
    have := List.find?_eq_none.mp hfind x hx
    simp only [beq_iff_eq] at this
    exact this hcn

theorem inv_atualizar (db : DB) (i : Nat) (u : EmpresaUpdate) (h : db.Inv) :
    (atualizar_empresa db i u).2.Inv := by
  unfold atualizar_empresa
  split
  · exact h
  rename_i db_empresa hfound
  have hmem : db_empresa ∈ db.rows := List.mem_of_find?_eq_some hfound
  have hid : db_empresa.id = i := by
    have := List.find?_some hfound
    simpa [beq_iff_eq] using this
  split
  · exact h
  rename_i hv
  split
  · exact h
  rename_i hdup
  split
  · exact h
  split
  · exact h
  split
  · exact h
  rename_i hnull
  have hupid : (aplicarUpdate db_empresa u).id = db_empresa.id := rfl
  constructor
  · intro r hr
    rcases mem_replaceFirstP hr with hr | hr
    · exact h.1 r hr
    · subst hr
      rw [hupid, hid]
      rw [← hid]
      exact h.1 db_empresa hmem
  · apply pairwise_replaceFirstP h.2
    · intro x y hxy hpx
      simp only [beq_iff_eq] at hpx ⊢
      rw [Bool.eq_false_iff]
      simp only [ne_eq, beq_iff_eq]
      intro hpy
      exact hxy.1 (hpx.trans hpy.symm)
    · intro x hx hpx
      simp only [beq_iff_eq] at hpx
      rw [Bool.eq_false_iff] at hpx
      simp only [ne_eq, beq_iff_eq] at hpx
      have hxne : x.id ≠ (aplicarUpdate db_empresa u).id := by
        rw [hupid, hid]; exact hpx
      have hcnpj : x.cnpj = (aplicarUpdate db_empresa u).cnpj →
          x.cnpj = [] ∧ (aplicarUpdate db_empresa u).cnpj = [] := by
        intro hcn
        match hu : u.cnpj with
        | .null => exact absurd (by simp [hu]) hnull
        | .unset =>
          have hx2 : (aplicarUpdate db_empresa u).cnpj = db_empresa.cnpj := by
            simp [aplicarUpdate, hu]
          rw [hx2] at hcn ⊢
          have hne : x.id ≠ db_empresa.id := by rw [hid]; exact hpx
          exact (inv_pair h hx hmem hne).2 hcn
        | .val s =>
          have hx2 : (aplicarUpdate db_empresa u).cnpj = digitsOnly s := by
            simp [aplicarUpdate, hu]
          by_cases hs : s = []
          · subst hs
            rw [hx2] at hcn ⊢
            simp only [digitsOnly, List.filter_nil] at hcn ⊢
            exact ⟨hcn, trivial⟩
          · exfalso
            have htr : u.cnpj.truthy = true := by
              simp [hu, UField.truthy, hs]
            rw [Bool.not_eq_true, Bool.and_eq_false_iff] at hdup
            rcases hdup with hdup | hdup
            · rw [htr] at hdup; simp at hdup
            · have hnone : List.find?
                  (fun r => r.cnpj == digitsOnly u.cnpj.getStr && r.id != i) db.rows
                    = none := by
                cases hfe : List.find?
                    (fun r => r.cnpj == digitsOnly u.cnpj.getStr && r.id != i) db.rows with
                | none => rfl
                | some w => rw [hfe] at hdup; simp at hdup
              have hnomatch := List.find?_eq_none.mp hnone x hx
              simp only [Bool.and_eq_true, not_and] at hnomatch
              rw [hx2] at hcn
              have hgs : u.cnpj.getStr = s := by simp [hu, UField.getStr]
              rw [hgs] at hnomatch
              have hxcn : (x.cnpj == digitsOnly s) = true := by
                simpa [beq_iff_eq] using hcn
              have hxid := hnomatch hxcn
              rw [Bool.not_eq_true, bne_eq_false_iff_eq] at hxid
              exact hpx hxid
      exact ⟨⟨hxne, hcnpj⟩, empresaPairOk_symm ⟨hxne, hcnpj⟩⟩

theorem inv_deletar (db : DB) (i : Nat) (h : db.Inv) :
    (deletar_empresa db i).2.Inv := by
  unfold deletar_empresa
  split
  · exact h
  constructor
  · intro r hr
    exact h.1 r ((List.eraseP_sublist _).mem hr)
  · exact h.2.sublist (List.eraseP_sublist _)

/-- Every reachable company-table state satisfies the invariant. -/
theorem reachable_inv {db : DB} (h : Reachable db) : db.Inv := by
  induction h with
  | init => exact ⟨by simp [DB.empty], by simp [DB.empty]⟩
  | create e _ ih => exact inv_criar _ e ih
  | update i u _ ih => exact inv_atualizar _ i u ih
  | delete i _ ih => exact inv_deletar _ i ih

/-! ## The at-most-one-open-borrow invariant of the borrow table -/

/-- What holds of any two distinct rows of the borrow table: their ids
differ and they are not both Open on the same copy. -/
def BorrowPairOk (b1 b2 : Borrow) : Prop :=
  b1.id ≠ b2.id ∧
    ¬(b1.copy_id = b2.copy_id ∧ b1.status = .aberto ∧ b2.status = .aberto)

theorem borrowPairOk_symm {b1 b2 : Borrow} (h : BorrowPairOk b1 b2) :
    BorrowPairOk b2 b1 :=
  ⟨fun he => h.1 he.symm, fun he => h.2 ⟨he.1.symm, he.2.2, he.2.1⟩⟩

/-- The inductive invariant of the borrow table. -/
def BorrowDB.Inv (db : BorrowDB) : Prop :=
  (∀ b ∈ db.borrows, b.id < db.nextId) ∧ db.borrows.Pairwise BorrowPairOk

theorem inv_criar_emprestimo (db : BorrowDB) (bid lid cid : Nat) (h : db.Inv) :
    (criar_emprestimo db bid lid cid).2.Inv := by
  unfold criar_emprestimo
  dsimp only
  split
  · exact h
  rename_i hopen
  rw [BorrowDB.hasOpenOn, Bool.not_eq_true, List.any_eq_false] at hopen
  constructor
  · intro b hb
    rcases List.mem_append.mp hb with hb | hb
    · exact Nat.lt_succ_of_lt (h.1 b hb)
    · simp only [List.mem_singleton] at hb
      subst hb
      exact Nat.lt_succ_self _
  · refine List.pairwise_append.mpr ⟨h.2, List.pairwise_singleton _ _, ?_⟩
    intro x hx y hy
    simp only [List.mem_singleton] at hy
    subst hy
    refine ⟨Nat.ne_of_lt (h.1 x hx), ?_⟩
    rintro ⟨hc, hox, _⟩
    exact hopen x hx (by simp [hc, hox])

theorem inv_devolver_emprestimo (db : BorrowDB) (i : Nat) (h : db.Inv) :
    (devolver_emprestimo db i).2.Inv := by
  unfold devolver_emprestimo
  split
  · exact h
  rename_i b hfound
  split
  · exact h
  constructor
  · intro x hx
    rcases mem_replaceFirstP hx with hx | hx
    · exact h.1 x hx
    · subst hx
      exact h.1 b (List.mem_of_find?_eq_some hfound)
  · apply pairwise_replaceFirstP h.2
    · intro x y hxy hpx
      simp only [beq_iff_eq] at hpx
      rw [Bool.eq_false_iff]
      simp only [ne_eq, beq_iff_eq]
      intro hpy
      exact hxy.1 (hpx.trans hpy.symm)
    · intro x hx hpx
      simp only [beq_iff_eq] at hpx
      rw [Bool.eq_false_iff] at hpx
      simp only [ne_eq, beq_iff_eq] at hpx
      have hbid : b.id = i := by
        have := List.find?_some hfound
        simpa [beq_iff_eq] using this
      have hne : x.id ≠ ({ b with status := .devolvido } : Borrow).id := by
        simpa [hbid] using hpx
      have hno : ¬(x.copy_id = ({ b with status := .devolvido } : Borrow).copy_id ∧
          x.status = .aberto ∧ ({ b with status := .devolvido } : Borrow).status = .aberto) := by
        rintro ⟨_, _, hcontra⟩
        simp at hcontra
      exact ⟨⟨hne, hno⟩, borrowPairOk_symm ⟨hne, hno⟩⟩

/-- Every reachable borrow-table state satisfies the invariant. -/
theorem borrowReachable_inv {db : BorrowDB} (h : BorrowReachable db) : db.Inv := by
  induction h with
  | init => exact ⟨by simp [BorrowDB.empty], by simp [BorrowDB.empty]⟩
  | create bid lid cid _ ih => exact inv_criar_emprestimo _ bid lid cid ih
  | ret i _ ih => exact inv_devolver_emprestimo _ i ih

/-! ## Characterizations of the handlers -/

theorem digitsOnly_idem (s : List Char) : digitsOnly (digitsOnly s) = digitsOnly s := by
  simp [digitsOnly, List.filter_filter]

theorem validar_cnpj_iff (s : List Char) :
    validar_cnpj s = true ↔
      (digitsOnly s).length = 14 ∧ ¬∃ d, digitsOnly s = List.replicate 14 d := by
  unfold validar_cnpj
  dsimp only
  split
  · rename_i hlen
    simp only [Bool.false_eq_true, false_iff, not_and]
    intro h14
    exact absurd h14 hlen
  · rename_i hlen
    rw [not_not] at hlen
    split
    · rename_i heq
      rw [heq] at hlen
      simp at hlen
    · rename_i d rest heq
      rw [heq] at hlen ⊢
      simp only [hlen, true_and, Bool.not_eq_true', beq_eq_false_iff_ne, ne_eq]
      constructor
      · intro hne
        rintro ⟨d', hd'⟩
        rw [show List.replicate 14 d' = d' :: List.replicate 13 d' from rfl] at hd'
        injection hd' with h1 h2
        subst h1
        exact hne (by rw [show List.replicate 14 d = d :: List.replicate 13 d from rfl, h2])
      · intro hnex h
        exact hnex ⟨d, h⟩

theorem validar_cnpj_ne_nil {s : List Char} (h : validar_cnpj s = true) :
    digitsOnly s ≠ [] := by
  intro hnil
  have := ((validar_cnpj_iff s).mp h).1
  rw [hnil] at this
  simp at this

theorem validar_cnpj_digits (s t : List Char) (h : digitsOnly s = digitsOnly t) :
    validar_cnpj s = validar_cnpj t := by
  rw [Bool.eq_iff_iff, validar_cnpj_iff, validar_cnpj_iff, h]

/-- The row `criar_empresa` persists when its checks pass. -/
def novoEmpresa (db : DB) (e : EmpresaCreate) : Empresa :=
  { id := db.nextId
    cnpj := digitsOnly e.cnpj
    razao_social := some e.razao_social
    nome_fantasia := e.nome_fantasia
    numero_contato := e.numero_contato
    email_contato := e.email_contato
    website := e.website }

theorem criar_validation_fail {db : DB} {e : EmpresaCreate}
    (hp : passesCreateValidations e = false) :
    ∃ err : Err, err.isValidationError = true ∧ criar_empresa db e = (.error err, db) := by
  unfold passesCreateValidations at hp
  by_cases h1 : validar_cnpj e.cnpj = true
  · rw [h1] at hp
    simp only [Bool.true_and, Bool.and_eq_false_iff] at hp
    by_cases h2 : (truthyOpt e.email_contato &&
        !validar_email (e.email_contato.getD [])) = true
    · exact ⟨.emailInvalido, rfl, by simp [criar_empresa, h1, h2]⟩
    · have h3 : (truthyOpt e.numero_contato &&
          !validar_telefone (e.numero_contato.getD [])) = true := by
        rcases hp with hp | hp
        · rw [Bool.not_eq_false'] at hp
          exact absurd hp h2
        · rwa [Bool.not_eq_false'] at hp
      exact ⟨.telefoneInvalido, rfl,
        by simp [criar_empresa, h1, Bool.of_not_eq_true h2, h3]⟩
  · exact ⟨.cnpjInvalido, rfl, by simp [criar_empresa, Bool.of_not_eq_true h1]⟩

theorem passes_guards {e : EmpresaCreate} (hp : passesCreateValidations e = true) :
    validar_cnpj e.cnpj = true ∧
    (truthyOpt e.email_contato && !validar_email (e.email_contato.getD [])) = false ∧
    (truthyOpt e.numero_contato && !validar_telefone (e.numero_contato.getD [])) = false := by
  unfold passesCreateValidations at hp
  rw [Bool.and_eq_true, Bool.and_eq_true] at hp
  exact ⟨hp.1.1, by rw [← Bool.not_eq_true', hp.1.2], by rw [← Bool.not_eq_true', hp.2]⟩

theorem criar_conflict {db : DB} {e : EmpresaCreate}
    (hp : passesCreateValidations e = true)
    (hdup : ∃ r ∈ db.rows, r.cnpj = digitsOnly e.cnpj) :
    criar_empresa db e = (.error .cnpjDuplicado, db) := by
  obtain ⟨h1, h2, h3⟩ := passes_guards hp
  obtain ⟨r, hr, hrc⟩ := hdup
  have hsome : (db.firstByCnpj (digitsOnly e.cnpj)).isSome := by
    rw [DB.firstByCnpj, List.find?_isSome]
    exact ⟨r, hr, by simp [hrc]⟩
  obtain ⟨w, hw⟩ := Option.isSome_iff_exists.mp hsome
  simp [criar_empresa, h1, h2, h3, hw]

theorem criar_success {db : DB} {e : EmpresaCreate}
    (hp : passesCreateValidations e = true)
    (hnone : ∀ r ∈ db.rows, r.cnpj ≠ digitsOnly e.cnpj) :
    criar_empresa db e =
      (.ok (novoEmpresa db e),
        { rows := db.rows ++ [novoEmpresa db e], nextId := db.nextId + 1 }) := by
  obtain ⟨h1, h2, h3⟩ := passes_guards hp
  have hnone' : db.firstByCnpj (digitsOnly e.cnpj) = none := by
    rw [DB.firstByCnpj, List.find?_eq_none]
    intro r hr
    simp only [beq_iff_eq]
    exact hnone r hr
  simp [criar_empresa, h1, h2, h3, hnone', novoEmpresa]

theorem criar_ok_inv {db db2 : DB} {e : EmpresaCreate} {novo : Empresa}
    (h : criar_empresa db e = (.ok novo, db2)) :
    novo = novoEmpresa db e ∧
    db2 = { rows := db.rows ++ [novo], nextId := db.nextId + 1 } ∧
    db.firstByCnpj (digitsOnly e.cnpj) = none ∧
    validar_cnpj e.cnpj = true := by
  unfold criar_empresa at h
  dsimp only at h
  split at h
  · simp at h
  rename_i hg1
  split at h
  · simp at h
  split at h
  · simp at h
  split at h
  · simp at h
  rename_i hfind
  rw [Prod.mk.injEq, Except.ok.injEq] at h
  obtain ⟨h1, h2⟩ := h
  refine ⟨h1.symm, ?_, hfind, by simpa using hg1⟩
  rw [← h2, h1]

/-- Claim C5: `validate_tax_id` holds exactly of strings whose digits-only
normalization has exactly 14 digits not all equal; it depends only on
the digits, so interspersed non-digit separators never change it. -/
theorem claim_C5 (s t : List Char) :
    (validar_cnpj s = true ↔
      (digitsOnly s).length = 14 ∧ ¬∃ d, digitsOnly s = List.replicate 14 d) ∧
    (digitsOnly s = digitsOnly t → validar_cnpj s = validar_cnpj t) :=
  ⟨validar_cnpj_iff s, validar_cnpj_digits s t⟩

/-- Claim C9: `validate_phone` holds exactly when the digits-only
normalization has 10 or 11 digits; in particular it fails at 9 or 12
digits. -/
theorem claim_C9 (s : List Char) :
    (validar_telefone s = true ↔
      (digitsOnly s).length = 10 ∨ (digitsOnly s).length = 11) ∧
    ((digitsOnly s).length = 9 ∨ (digitsOnly s).length = 12 →
      validar_telefone s = false) := by
  unfold validar_telefone
  dsimp only
  constructor
  · simp only [Bool.or_eq_true, beq_iff_eq]
  · rintro (h | h) <;> rw [h] <;> rfl

theorem find?_append_of_none {p : α → Bool} {l1 l2 : List α}
    (h : l1.find? p = none) : (l1 ++ l2).find? p = l2.find? p := by
  induction l1 with
  | nil => simp
  | cons r rs ih =>
    rw [List.find?_cons] at h
    split at h
    · exact absurd h (by simp)
    · rename_i hpr
      rw [List.cons_append, List.find?_cons_of_neg _ (by simpa using hpr)]
      exact ih h

theorem find?_decomp {p : α → Bool} {l : List α} {e : α}
    (h : l.find? p = some e) :
    ∃ l1 l2, l = l1 ++ e :: l2 ∧ (∀ b ∈ l1, p b = false) ∧
      l.eraseP p = l1 ++ l2 := by
  induction l with
  | nil => simp [List.find?] at h
  | cons r rs ih =>
    by_cases hpr : p r = true
    · rw [List.find?_cons_of_pos _ hpr] at h
      injection h with h
      subst h
      exact ⟨[], rs, rfl, by simp, by rw [List.eraseP_cons_of_pos hpr]; rfl⟩
    · have hpr' : p r = false := Bool.of_not_eq_true hpr
      rw [List.find?_cons_of_neg _ hpr] at h
      obtain ⟨l1, l2, heq, hall, herase⟩ := ih h
      refine ⟨r :: l1, l2, by rw [heq]; rfl, ?_, ?_⟩
      · intro b hb
        rcases List.mem_cons.mp hb with hb | hb
        · exact hb ▸ hpr'
        · exact hall b hb
      · rw [List.eraseP_cons_of_neg hpr, herase]
        rfl

/-- Claim C1: create validates the tax ID and — only when provided — email
and phone, failing with a ValidationError kind and leaving the table
unchanged; with the validations passed, a stored duplicate of the
normalized tax ID is a Conflict leaving the table unchanged; otherwise
exactly one new row is appended, storing the digits-only tax ID, and
returned. -/
theorem claim_C1 (db : DB) (e : EmpresaCreate) :
    (passesCreateValidations e = false →
      ∃ err : Err, err.isValidationError = true ∧
        criar_empresa db e = (.error err, db)) ∧
    (passesCreateValidations e = true →
      (∃ r ∈ db.rows, r.cnpj = digitsOnly e.cnpj) →
      criar_empresa db e = (.error .cnpjDuplicado, db)) ∧
    (passesCreateValidations e = true →
      (∀ r ∈ db.rows, r.cnpj ≠ digitsOnly e.cnpj) →
      ∃ novo : Empresa,
        criar_empresa db e =
          (.ok novo, { rows := db.rows ++ [novo], nextId := db.nextId + 1 }) ∧
        novo.cnpj = digitsOnly e.cnpj) :=
  ⟨fun hp => criar_validation_fail hp,
   fun hp hdup => criar_conflict hp hdup,
   fun hp hnone => ⟨novoEmpresa db e, criar_success hp hnone, rfl⟩⟩

/-- Claim C6: get-by-tax-ID is insensitive to non-digit formatting of the
query, fails with NotFound when no stored tax ID matches the normalized
query, and finds the company a successful create just persisted for every
query normalizing to the created tax ID. -/
theorem claim_C6 (db db2 : DB) (e : EmpresaCreate) (novo : Empresa) (q : List Char) :
    (buscar_empresa_por_cnpj db q = buscar_empresa_por_cnpj db (digitsOnly q)) ∧
    ((∀ r ∈ db.rows, r.cnpj ≠ digitsOnly q) →
      buscar_empresa_por_cnpj db q = .error .naoEncontrada) ∧
    (criar_empresa db e = (.ok novo, db2) → digitsOnly q = digitsOnly e.cnpj →
      buscar_empresa_por_cnpj db2 q = .ok novo) := by
  refine ⟨?_, ?_, ?_⟩
  · unfold buscar_empresa_por_cnpj
    rw [digitsOnly_idem]
  · intro hnone
    unfold buscar_empresa_por_cnpj
    dsimp only
    have h : db.firstByCnpj (digitsOnly q) = none := by
      rw [DB.firstByCnpj, List.find?_eq_none]
      intro r hr
      simp only [beq_iff_eq]
      exact hnone r hr
    rw [h]
  · intro hok hq
    obtain ⟨hnovo, hdb2, hfind, _⟩ := criar_ok_inv hok
    unfold buscar_empresa_por_cnpj
    dsimp only
    have hcn : novo.cnpj = digitsOnly e.cnpj := by rw [hnovo]; rfl
    have : db2.firstByCnpj (digitsOnly q) = some novo := by
      rw [hdb2, DB.firstByCnpj]
      dsimp only
      rw [hq, find?_append_of_none (by rw [DB.firstByCnpj] at hfind; exact hfind)]
      simp [hcn]
    rw [this]

/-- Claim C8: delete of an absent identity fails with NotFound (and only
NotFound) leaving the table unchanged; delete of a present identity
removes exactly that row, keeping every other row; afterwards a get on
the same identity fails with NotFound (ids being the unique identities of
the rows). -/
theorem claim_C8 (db : DB) (i : Nat) :
    (db.firstById i = none → deletar_empresa db i = (.error .naoEncontrada, db)) ∧
    (∀ e, db.firstById i = some e →
      ∃ l1 l2, db.rows = l1 ++ e :: l2 ∧
        deletar_empresa db i = (.ok (), { db with rows := l1 ++ l2 })) ∧
    ((db.rows.map Empresa.id).Nodup → db.firstById i ≠ none →
      buscar_empresa (deletar_empresa db i).2 i = .error .naoEncontrada) := by
  refine ⟨?_, ?_, ?_⟩
  · intro h
    unfold deletar_empresa
    rw [h]
  · intro e he
    obtain ⟨l1, l2, heq, hall, herase⟩ := find?_decomp (by rw [DB.firstById] at he; exact he)
    refine ⟨l1, l2, heq, ?_⟩
    unfold deletar_empresa
    rw [he, herase]
  · intro hnodup hne
    obtain ⟨e, he⟩ := Option.ne_none_iff_exists'.mp hne
    obtain ⟨l1, l2, heq, hall, herase⟩ := find?_decomp (by rw [DB.firstById] at he; exact he)
    have heid : e.id = i := by
      have := List.find?_some (by rw [DB.firstById] at he; exact he)
      simpa [beq_iff_eq] using this
    have hdel : (deletar_empresa db i).2 = { db with rows := l1 ++ l2 } := by
      unfold deletar_empresa
      rw [he, herase]
    rw [hdel]
    unfold buscar_empresa
    have hl2 : ∀ b ∈ l2, b.id ≠ i := by
      have hsub : (e :: l2).Sublist db.rows := by
        rw [heq]
        exact List.sublist_append_right l1 (e :: l2)
      have hnd : ((e :: l2).map Empresa.id).Nodup :=
        List.Nodup.sublist (List.Sublist.map Empresa.id hsub) hnodup
      rw [List.map_cons, List.nodup_cons] at hnd
      intro b hb hbid
      exact hnd.1 (by rw [heid, ← hbid]; exact List.mem_map_of_mem Empresa.id hb)
    have : ({ db with rows := l1 ++ l2 } : DB).firstById i = none := by
      rw [DB.firstById, List.find?_eq_none]
      intro b hb
      simp only [beq_iff_eq]
      rcases List.mem_append.mp hb with hb | hb
      · have := hall b hb
        simpa [beq_iff_eq] using this
      · exact hl2 b hb
    rw [this]

theorem atualizar_ok_inv {db db2 : DB} {i : Nat} {u : EmpresaUpdate} {e2 : Empresa}
    (h : atualizar_empresa db i u = (.ok e2, db2)) :
    ∃ e, db.firstById i = some e ∧ e2 = aplicarUpdate e u ∧
      db2 = { db with rows := replaceFirstP (fun r => r.id == i) e2 db.rows } := by
  unfold atualizar_empresa at h
  split at h
  · simp at h
  rename_i e hfound
  split at h
  · simp at h
  split at h
  · simp at h
  split at h
  · simp at h
  split at h
  · simp at h
  split at h
  · simp at h
  rw [Prod.mk.injEq, Except.ok.injEq] at h
  obtain ⟨h1, h2⟩ := h
  exact ⟨e, hfound, h1.symm, by rw [← h2, h1]⟩

/-- Claim C3: a successful partial update leaves every field absent from
the payload (and the identity) exactly as it was on the target row. -/
theorem claim_C3 (db db2 : DB) (i : Nat) (u : EmpresaUpdate) (e e2 : Empresa)
    (hfound : db.firstById i = some e)
    (hok : atualizar_empresa db i u = (.ok e2, db2)) :
    (u.cnpj = .unset → e2.cnpj = e.cnpj) ∧
    (u.razao_social = .unset → e2.razao_social = e.razao_social) ∧
    (u.nome_fantasia = .unset → e2.nome_fantasia = e.nome_fantasia) ∧
    (u.numero_contato = .unset → e2.numero_contato = e.numero_contato) ∧
    (u.email_contato = .unset → e2.email_contato = e.email_contato) ∧
    (u.website = .unset → e2.website = e.website) ∧
    e2.id = e.id := by
  obtain ⟨e', hfound', he2, _⟩ := atualizar_ok_inv hok
  rw [hfound] at hfound'
  injection hfound' with he'
  subst he'
  subst he2
  refine ⟨?_, ?_, ?_, ?_, ?_, ?_, rfl⟩ <;> intro hu <;>
    simp [aplicarUpdate, hu, UField.applyOpt]

def c3row : Empresa :=
  ⟨1, "12345678000195".toList, some "A".toList, none, none, none, some "w".toList⟩

def c3db : DB := ⟨[c3row], 2⟩

def c3u : EmpresaUpdate := { razao_social := .val "x".toList }

def c3res : Empresa := aplicarUpdate c3row c3u

def c3db2 : DB := { c3db with rows := replaceFirstP (fun r => r.id == 1) c3res c3db.rows }

/-- Witness for claim C3 at a concrete row and payload: the payload only
lists `razao_social`, so the website survives. -/
theorem claim_C3_witness : c3res.website = some "w".toList :=
  (claim_C3 c3db c3db2 1 c3u c3row c3res rfl rfl).2.2.2.2.2.1 rfl

/-- Claim C10: a payload listing the tax-ID field with the empty string is
not truthy, so both the format validation and the duplicate check are
skipped; presence-based application still stores the empty string, leaving
a row whose stored tax ID fails `validate_tax_id`. -/
theorem claim_C10 (db : DB) (i : Nat) (u : EmpresaUpdate) (e : Empresa)
    (hfound : db.firstById i = some e)
    (hcn : u.cnpj = .val [])
    (hem : (u.email_contato.truthy && !validar_email u.email_contato.getStr) = false)
    (hph : (u.numero_contato.truthy && !validar_telefone u.numero_contato.getStr) = false) :
    ∃ e2 db2, atualizar_empresa db i u = (.ok e2, db2) ∧
      e2.cnpj = [] ∧ validar_cnpj e2.cnpj = false ∧ e2 ∈ db2.rows := by
  have htr : u.cnpj.truthy = false := by rw [hcn]; rfl
  have heid : e.id = i := by
    have := List.find?_some (by rw [DB.firstById] at hfound; exact hfound)
    simpa [beq_iff_eq] using this
  have hecnpj : (aplicarUpdate e u).cnpj = [] := by
    simp [aplicarUpdate, hcn, digitsOnly]
  refine ⟨aplicarUpdate e u,
    { db with rows := replaceFirstP (fun r => r.id == i) (aplicarUpdate e u) db.rows },
    ?_, hecnpj, by rw [hecnpj]; rfl, ?_⟩
  · unfold atualizar_empresa
    rw [hfound]
    dsimp only
    rw [htr, hem, hph]
    simp [hcn]
  · have hpa : ((aplicarUpdate e u).id == i) = true := by
      simp [aplicarUpdate, heid]
    have := @find?_replaceFirstP Empresa (fun r => r.id == i) (aplicarUpdate e u) e db.rows
      (by rw [DB.firstById] at hfound; exact hfound) hpa
    exact List.mem_of_find?_eq_some this

def c10rowA : Empresa := ⟨1, "12345678000195".toList, some "A".toList, none, none, none, none⟩

def c10rowB : Empresa := ⟨2, [], some "B".toList, none, none, none, none⟩

def c10db : DB := ⟨[c10rowA, c10rowB], 3⟩

def c10u : EmpresaUpdate := { cnpj := .val [] }

/-- Witness for claim C10 at a concrete store that even holds another row
whose stored tax ID is already the empty string: the conflict check is
skipped nonetheless. -/
theorem claim_C10_witness :
    ∃ e2 db2, atualizar_empresa c10db 1 c10u = (.ok e2, db2) ∧
      e2.cnpj = [] ∧ validar_cnpj e2.cnpj = false ∧ e2 ∈ db2.rows :=
  claim_C10 c10db 1 c10u c10rowA rfl rfl rfl rfl

def c4row : Empresa := ⟨1, "12345678000195".toList, some "A".toList, none, none, none, none⟩

def c4db : DB := ⟨[c4row], 2⟩

def c4u : EmpresaUpdate :=
  { cnpj := .val "12345678000195".toList, email_contato := .val "bad".toList }

/-- Counterexample to claim C4 as stated: an update payload supplying the
target's own current tax ID need not succeed — here it also carries an
invalid contact email, so the call fails with a ValidationError instead
of succeeding. -/
theorem claim_C4_counterexample :
    c4db.firstById 1 = some c4row ∧
    c4u.cnpj = .val "12345678000195".toList ∧
    digitsOnly "12345678000195".toList = c4row.cnpj ∧
    atualizar_empresa c4db 1 c4u = (.error .emailInvalido, c4db) ∧
    Err.emailInvalido ≠ Err.cnpjDuplicado := by
  refine ⟨rfl, rfl, by decide, by rfl, by decide⟩

/-- Claim C4, amended: an update of a nonexistent target fails with
NotFound; an update supplying a tax ID that passes format validation
fails with Conflict when its normalization is stored by a different
company; it succeeds when the normalization equals the target's own
stored tax ID, provided the store satisfies the uniqueness invariant and
the payload's provided email and phone pass their validations. -/
theorem claim_C4_amended (db : DB) (i : Nat) (u : EmpresaUpdate) (s : List Char) :
    (db.firstById i = none →
      atualizar_empresa db i u = (.error .naoEncontrada, db)) ∧
    (db.firstById i ≠ none → u.cnpj = .val s → validar_cnpj s = true →
      (∃ r ∈ db.rows, r.id ≠ i ∧ r.cnpj = digitsOnly s) →
      atualizar_empresa db i u = (.error .cnpjDuplicado, db)) ∧
    (∀ e, db.Inv → db.firstById i = some e → u.cnpj = .val s →
      validar_cnpj s = true → digitsOnly s = e.cnpj →
      (u.email_contato.truthy && !validar_email u.email_contato.getStr) = false →
      (u.numero_contato.truthy && !validar_telefone u.numero_contato.getStr) = false →
      ∃ db2, atualizar_empresa db i u = (.ok (aplicarUpdate e u), db2) ∧
        (aplicarUpdate e u).cnpj = e.cnpj) := by
  refine ⟨?_, ?_, ?_⟩
  · intro h
    unfold atualizar_empresa
    rw [h]
  · intro hne hcnval hv hdup
    obtain ⟨e, he⟩ := Option.ne_none_iff_exists'.mp hne
    have hs : s ≠ [] := by
      intro h0
      exact validar_cnpj_ne_nil hv (by rw [h0]; rfl)
    have htr : u.cnpj.truthy = true := by
      rw [hcnval]
      simp [UField.truthy, hs]
    have hgs : u.cnpj.getStr = s := by rw [hcnval]; rfl
    have hsome :
        (db.rows.find? fun r => r.cnpj == digitsOnly u.cnpj.getStr && r.id != i).isSome
          = true := by
      rw [List.find?_isSome]
      obtain ⟨r, hr, hrne, hrc⟩ := hdup
      exact ⟨r, hr, by simp [hgs, hrc, bne_iff_ne, hrne]⟩
    rw [hgs] at hsome
    unfold atualizar_empresa
    rw [he]
    dsimp only
    rw [htr, hgs, hv]
    simp [hsome]
  · intro e hinv hfound hcnval hv hdig hem hph
    have heid : e.id = i := by
      have := List.find?_some (by rw [DB.firstById] at hfound; exact hfound)
      simpa [beq_iff_eq] using this
    have hmem : e ∈ db.rows :=
      List.mem_of_find?_eq_some (by rw [DB.firstById] at hfound; exact hfound)
    have hs : s ≠ [] := by
      intro h0
      exact validar_cnpj_ne_nil hv (by rw [h0]; rfl)
    have htr : u.cnpj.truthy = true := by
      rw [hcnval]
      simp [UField.truthy, hs]
    have hgs : u.cnpj.getStr = s := by rw [hcnval]; rfl
    have hnnull : (u.cnpj == UField.null) = false := by
      rw [hcnval]
      rfl
    have hnone :
        (db.rows.find? fun r => r.cnpj == digitsOnly u.cnpj.getStr && r.id != i)
          = none := by
      rw [List.find?_eq_none]
      intro r hr hcontra
      rw [Bool.and_eq_true] at hcontra
      obtain ⟨hrc, hrne⟩ := hcontra
      rw [hgs, beq_iff_eq] at hrc
      rw [bne_iff_ne] at hrne
      have hrid : r.id ≠ e.id := by rw [heid]; exact hrne
      have hpair := inv_pair hinv hr hmem hrid
      have hboth := hpair.2 (by rw [hrc, hdig])
      exact validar_cnpj_ne_nil hv (by rw [hdig, hboth.2])
    refine ⟨{ db with rows := replaceFirstP (fun r => r.id == i) (aplicarUpdate e u) db.rows },
      ?_, ?_⟩
    · rw [hgs] at hnone
      unfold atualizar_empresa
      rw [hfound]
      dsimp only
      rw [htr, hgs, hv]
      simp [hnone, hem, hph, hnnull]
    · simp [aplicarUpdate, hcnval, hdig]

def c2p1 : EmpresaCreate := { cnpj := "12345678000195".toList, razao_social := "A".toList }

def c2p2 : EmpresaCreate := { cnpj := "98765432000198".toList, razao_social := "B".toList }

def c2uEmpty : EmpresaUpdate := { cnpj := .val [] }

def c2db : DB :=
  (atualizar_empresa (atualizar_empresa
    (criar_empresa (criar_empresa DB.empty c2p1).2 c2p2).2 1 c2uEmpty).2 2 c2uEmpty).2

/-- Counterexample to claim C2 as stated: the stored tax ID is not unique
in every reachable state — two creates followed by two updates that each
set the tax-ID field to the empty string reach a state with two distinct
rows carrying the same stored tax ID (the empty string). -/
theorem claim_C2_counterexample :
    Reachable c2db ∧
    ∃ r1 ∈ c2db.rows, ∃ r2 ∈ c2db.rows, r1.id ≠ r2.id ∧ r1.cnpj = r2.cnpj := by
  constructor
  · exact .update 2 c2uEmpty (.update 1 c2uEmpty (.create c2p2 (.create c2p1 .init)))
  · decide

/-- Claim C2, amended: in every reachable state any two distinct rows
carrying the same stored tax ID both carry the empty string (so nonempty
stored tax IDs are unique system-wide); and from a state holding no row
with a given normalized tax ID, two otherwise-valid creates normalizing
to that value yield exactly one success and one Conflict, in either
order. -/
theorem claim_C2_amended :
    (∀ db : DB, Reachable db →
      db.rows.Pairwise fun r1 r2 => r1.cnpj = r2.cnpj → r1.cnpj = [] ∧ r2.cnpj = []) ∧
    (∀ (db : DB) (p1 p2 : EmpresaCreate),
      passesCreateValidations p1 = true → passesCreateValidations p2 = true →
      digitsOnly p1.cnpj = digitsOnly p2.cnpj →
      (∀ r ∈ db.rows, r.cnpj ≠ digitsOnly p1.cnpj) →
      (criar_empresa db p1).1 = .ok (novoEmpresa db p1) ∧
      criar_empresa (criar_empresa db p1).2 p2 =
        (.error .cnpjDuplicado, (criar_empresa db p1).2)) := by
  constructor
  · intro db h
    exact (reachable_inv h).2.imp fun hp => hp.2
  · intro db p1 p2 hp1 hp2 h12 hnone
    have hsucc := criar_success hp1 hnone
    constructor
    · rw [hsucc]
    · rw [hsucc]
      dsimp only
      apply criar_conflict hp2
      exact ⟨novoEmpresa db p1, by simp, by simp [novoEmpresa, h12]⟩

theorem mem_replaceFirstP_strong {p : α → Bool} {a : α} {R : α → α → Prop} {l : List α}
    (hp : l.Pairwise R)
    (hR : ∀ x y, R x y → p x = true → p y = false) :
    ∀ x ∈ replaceFirstP p a l, (x ∈ l ∧ p x = false) ∨ x = a := by
  induction l with
  | nil => intro x hx; simp [replaceFirstP] at hx
  | cons r rs ih =>
    rcases List.pairwise_cons.mp hp with ⟨hr, hrs⟩
    intro x hx
    by_cases hpr : p r = true
    · simp only [replaceFirstP, hpr, if_true] at hx
      rcases List.mem_cons.mp hx with hx | hx
      · exact Or.inr hx
      · exact Or.inl ⟨List.mem_cons_of_mem _ hx, hR r x (hr x hx) hpr⟩
    · simp only [replaceFirstP, hpr, if_false] at hx
      rcases List.mem_cons.mp hx with hx | hx
      · subst hx
        exact Or.inl ⟨List.mem_cons_self _ _, Bool.of_not_eq_true hpr⟩
      · rcases ih hrs x hx with ⟨hmem, hpx⟩ | hxa
        · exact Or.inl ⟨List.mem_cons_of_mem _ hmem, hpx⟩
        · exact Or.inr hxa

theorem devolver_ok_inv {db db2 : BorrowDB} {i : Nat} {b2 : Borrow}
    (h : devolver_emprestimo db i = (.ok b2, db2)) :
    ∃ b, db.borrows.find? (fun x => x.id == i) = some b ∧ b.status = .aberto ∧
      b2 = { b with status := .devolvido } ∧
      db2 = { db with borrows := replaceFirstP (fun r => r.id == i) b2 db.borrows } := by
  unfold devolver_emprestimo at h
  split at h
  · simp at h
  rename_i b hfound
  split at h
  · simp at h
  rename_i hst
  rw [Prod.mk.injEq, Except.ok.injEq] at h
  obtain ⟨h1, h2⟩ := h
  have hab : b.status = .aberto := by
    rw [Bool.not_eq_true, bne_eq_false_iff_eq] at hst
    exact hst
  exact ⟨b, hfound, hab, h1.symm, by rw [← h2, h1]⟩

/-- Claim C7 (modelled from the spec, the borrow code being absent from
the provided sources): in every reachable borrow-table state each copy has
at most one Open borrow; creating a borrow on a copy with an Open borrow
fails with Conflict leaving the table unchanged; returning a borrow that
is not Open fails; the second of two returns of the same borrow fails;
and right after a return, a create against the returned copy succeeds
with a fresh Open borrow. -/
theorem claim_C7 :
    (∀ (db : BorrowDB) (c : Nat), BorrowReachable db →
      db.borrows.countP (fun b => b.copy_id == c && b.status == .aberto) ≤ 1) ∧
    (∀ (db : BorrowDB) (bid lid c : Nat), db.hasOpenOn c = true →
      criar_emprestimo db bid lid c = (.error .copiaEmprestada, db)) ∧
    (∀ (db : BorrowDB) (i : Nat) (b : Borrow),
      db.borrows.find? (fun x => x.id == i) = some b → b.status ≠ .aberto →
      devolver_emprestimo db i = (.error .emprestimoNaoAberto, db)) ∧
    (∀ (db db2 : BorrowDB) (i : Nat) (b2 : Borrow),
      devolver_emprestimo db i = (.ok b2, db2) →
      (devolver_emprestimo db2 i).1 = .error .emprestimoNaoAberto) ∧
    (∀ (db db2 : BorrowDB) (i bid lid : Nat) (b2 : Borrow),
      BorrowReachable db → devolver_emprestimo db i = (.ok b2, db2) →
      ∃ nb db3, criar_emprestimo db2 bid lid b2.copy_id = (.ok nb, db3) ∧
        nb.status = .aberto) := by
  have hdiscr : ∀ (i : Nat) (x y : Borrow), BorrowPairOk x y →
      (x.id == i) = true → (y.id == i) = false := by
    intro i x y hxy hx
    rw [beq_iff_eq] at hx
    rw [Bool.eq_false_iff]
    simp only [ne_eq, beq_iff_eq]
    intro hy
    exact hxy.1 (hx.trans hy.symm)
  refine ⟨?_, ?_, ?_, ?_, ?_⟩
  · intro db c hre
    apply countP_le_one_of_pairwise
    apply ((borrowReachable_inv hre).2).imp
    intro b1 b2 hp hq
    obtain ⟨hq1, hq2⟩ := hq
    rw [Bool.and_eq_true, beq_iff_eq, beq_iff_eq] at hq1 hq2
    exact hp.2 ⟨hq1.1.trans hq2.1.symm, hq1.2, hq2.2⟩
  · intro db bid lid c h
    simp [criar_emprestimo, h]
  · intro db i b hfound hne
    unfold devolver_emprestimo
    rw [hfound]
    have : (b.status != BorrowStatus.aberto) = true := bne_iff_ne.mpr hne
    simp [this]
  · intro db db2 i b2 h
    obtain ⟨b, hfound, hopen, hb2, hdb2⟩ := devolver_ok_inv h
    have hbid : b.id = i := by
      have := List.find?_some hfound
      simpa [beq_iff_eq] using this
    have hb2id : (b2.id == i) = true := by
      rw [hb2]
      simpa [beq_iff_eq] using hbid
    have hfind2 : db2.borrows.find? (fun x => x.id == i) = some b2 := by
      rw [hdb2]
      exact find?_replaceFirstP hfound hb2id
    unfold devolver_emprestimo
    rw [hfind2]
    have : (b2.status != BorrowStatus.aberto) = true := by
      rw [hb2]
      rfl
    simp [this]
  · intro db db2 i bid lid b2 hre h
    have hinv := borrowReachable_inv hre
    obtain ⟨b, hfound, hopen, hb2, hdb2⟩ := devolver_ok_inv h
    have hbid : b.id = i := by
      have := List.find?_some hfound
      simpa [beq_iff_eq] using this
    have hbmem : b ∈ db.borrows := List.mem_of_find?_eq_some hfound
    have hfalse : db2.hasOpenOn b2.copy_id = false := by
      rw [hdb2, BorrowDB.hasOpenOn]
      dsimp only
      rw [List.any_eq_false]
      intro x hx
      rcases mem_replaceFirstP_strong hinv.2 (hdiscr i) x hx with ⟨hmem, hpx⟩ | hxa
      · intro hq
        rw [Bool.and_eq_true, beq_iff_eq, beq_iff_eq] at hq
        have hcopy : b2.copy_id = b.copy_id := by rw [hb2]
        have hxid : x.id ≠ b.id := by
          rw [hbid]
          rw [Bool.eq_false_iff] at hpx
          simpa [beq_iff_eq] using hpx
        have hpair := (borrowReachable_inv hre).2.forall
          (fun _ _ hp => borrowPairOk_symm hp) hmem hbmem
          (fun hxb => hxid (congrArg Borrow.id hxb))
        exact hpair.2 ⟨hq.1.trans hcopy, hq.2, hopen⟩
      · intro hq
        rw [hxa, Bool.and_eq_true] at hq
        have hb2s : b2.status = .devolvido := by rw [hb2]
        rw [hb2s] at hq
        simpa using hq.2
    refine ⟨⟨db2.nextId, bid, lid, b2.copy_id, .aberto⟩,
      ⟨db2.borrows ++ [⟨db2.nextId, bid, lid, b2.copy_id, .aberto⟩], db2.nextId + 1⟩,
      ?_, rfl⟩
    simp [criar_emprestimo, hfalse]

/-! ## Concrete witnesses -/

def w1bad : EmpresaCreate := { cnpj := "123".toList, razao_social := "A".toList }

/-- Witness for claim C1: a malformed tax ID is rejected with a
ValidationError kind on the empty store. -/
theorem claim_C1_witness :
    ∃ err : Err, err.isValidationError = true ∧
      criar_empresa DB.empty w1bad = (.error err, DB.empty) :=
  (claim_C1 DB.empty w1bad).1 (by decide)

def w2p1 : EmpresaCreate := { cnpj := "12.345.678/0001-95".toList, razao_social := "A".toList }

def w2p2 : EmpresaCreate := { cnpj := "12345678000195".toList, razao_social := "B".toList }

/-- Witness for the amended claim C2: two creates normalizing to the same
tax ID from the empty store — one success, then one Conflict. -/
theorem claim_C2_amended_witness :
    (criar_empresa DB.empty w2p1).1 = .ok (novoEmpresa DB.empty w2p1) ∧
    criar_empresa (criar_empresa DB.empty w2p1).2 w2p2 =
      (.error .cnpjDuplicado, (criar_empresa DB.empty w2p1).2) :=
  claim_C2_amended.2 DB.empty w2p1 w2p2 (by decide) (by decide) (by decide) (by decide)

def w4u : EmpresaUpdate := { cnpj := .val "12.345.678/0001-95".toList }

/-- Witness for the amended claim C4: updating a company's tax ID to its
own current value (reformatted) succeeds. -/
theorem claim_C4_amended_witness :
    ∃ db2, atualizar_empresa c4db 1 w4u = (.ok (aplicarUpdate c4row w4u), db2) ∧
      (aplicarUpdate c4row w4u).cnpj = c4row.cnpj :=
  (claim_C4_amended c4db 1 w4u "12.345.678/0001-95".toList).2.2 c4row
    ⟨by decide, List.pairwise_singleton EmpresaPairOk c4row⟩
    rfl rfl (by decide) (by decide) rfl rfl

/-- Witness for claim C5: fourteen identical digits with separators fail
validation. -/
theorem claim_C5_witness :
    validar_cnpj "1.1.1.1.1.1.1.1.1.1.1.1.1.1".toList = false :=
  Bool.eq_false_iff.mpr fun htrue =>
    ((claim_C5 "1.1.1.1.1.1.1.1.1.1.1.1.1.1".toList []).1.mp htrue).2 ⟨'1', by decide⟩

def w6e : EmpresaCreate := { cnpj := "12345678000195".toList, razao_social := "A".toList }

/-- Witness for claim C6: after a create, a formatted query normalizing to
the created tax ID finds the new row. -/
theorem claim_C6_witness :
    buscar_empresa_por_cnpj
      ({ rows := [novoEmpresa DB.empty w6e], nextId := 2 } : DB)
      "12.345.678/0001-95".toList = .ok (novoEmpresa DB.empty w6e) :=
  (claim_C6 DB.empty { rows := [novoEmpresa DB.empty w6e], nextId := 2 } w6e
    (novoEmpresa DB.empty w6e) "12.345.678/0001-95".toList).2.2 (by rfl) (by decide)

def w7db : BorrowDB := (criar_emprestimo BorrowDB.empty 10 20 5).2

/-- Witness for claim C7: lending a copy that is already out is a
Conflict. -/
theorem claim_C7_witness :
    criar_emprestimo w7db 11 21 5 = (.error .copiaEmprestada, w7db) :=
  claim_C7.2.1 w7db 11 21 5 (by decide)

def w8db : DB := ⟨[⟨7, "12345678000195".toList, some "A".toList, none, none, none, none⟩], 8⟩

/-- Witness for claim C8: after deleting the only row, the get on its
identity fails with NotFound. -/
theorem claim_C8_witness :
    buscar_empresa (deletar_empresa w8db 7).2 7 = .error .naoEncontrada :=
  (claim_C8 w8db 7).2.2 (by decide) (by decide)

/-- Witness for claim C9: an 11-digit phone with separators passes. -/
theorem claim_C9_witness : validar_telefone "(47) 91234-5678".toList = true :=
  (claim_C9 "(47) 91234-5678".toList).1.mpr (by decide)

end MinhaIntegracao
